import Mathlib

/-!
# Verification of `signal_bot.py`

A shallow embedding of the core of the signal bot: the `Signal` data model,
the `SignalStore` (an insertion-ordered mapping from integer ids to signals,
as a Python `dict`), its persistence round-trip, the `/addsignal` validation
path, and the price-monitoring cycle (`monitor_prices`), together with
theorems settling the specification claims.

Conventions of the embedding:
* Python `float` prices appear only in order comparisons and are carried
  through unchanged by (de)serialization, so they are modelled as `ℚ`.
* Timestamps are modelled as `Nat` (the ISO string is an injective image of
  the instant it encodes).
* A Python `dict` is an insertion-ordered association list: assigning to an
  existing key replaces the value in place, assigning to a fresh key appends.
* Telegram/TwelveData I/O is modelled by its observable effect: a fetch
  function `String → Option ℚ` (`none` = the request raised) and a list of
  emitted notification events.
-/

set_option autoImplicit false

namespace SignalBot

/-- The constant `CHANNEL_ID` from the CONFIG section (default value of the env override). -/
def CHANNEL_ID : Int := -1002733217001

/-- The `Signal` dataclass.  `created_at` is a `Nat` timestamp; `message_id`
is `Optional[int]`; `hit_targets` is the list of indices of hit targets, in
the order they were appended. -/
structure Signal where
  id : Nat
  chat_id : Int
  message_id : Option Nat := none
  symbol : String := "EUR/USD"
  side : String := "LONG"
  entry : ℚ := 0
  targets : List ℚ := []
  stop : Option ℚ := none
  note : String := ""
  created_at : Nat
  active : Bool := true
  hit_targets : List Nat := []
  provider : String := "twelvedata"
  deriving Repr, DecidableEq

/-- The dataclass field default for `created_at`:
`datetime.now(timezone.utc).isoformat()` is evaluated exactly once, when the
class body runs at import time.  `classDefTime` is that single instant; every
construction of a `Signal` that does not pass `created_at` explicitly receives
this same value, whatever the wall clock says at construction time. -/
def defaultCreatedAt (classDefTime : Nat) : Nat := classDefTime

/-- Constructing `Signal(id=0, chat_id=CHANNEL_ID, symbol=…, side=…, entry=…,
targets=…, stop=…, note=…)` as `addsignal_cmd` does: every omitted field takes
its dataclass default.  `now` is the wall-clock instant of the construction;
the source has no way to thread it into `created_at`, which takes the default
`defaultCreatedAt classDefTime` instead. -/
def newSignal (classDefTime : Nat) (now : Nat) (symbol side : String) (entry : ℚ)
    (targets : List ℚ) (stop : Option ℚ) (note : String) : Signal :=
  let _ := now
  { id := 0
    chat_id := CHANNEL_ID
    symbol := symbol
    side := side
    entry := entry
    targets := targets
    stop := stop
    note := note
    created_at := defaultCreatedAt classDefTime }

/-! ## Python `dict` as an insertion-ordered association list -/

/-- Assignment `d[k] = v` on a Python dict: replace in place when the key exists,
append otherwise. -/
def dictInsert : List (Nat × Signal) → Nat → Signal → List (Nat × Signal)
  | [], k, v => [(k, v)]
  | (k', v') :: rest, k, v =>
    if k' = k then (k, v) :: rest else (k', v') :: dictInsert rest k v

/-- Lookup `d.get(k)` on a Python dict. -/
def dictGet : List (Nat × Signal) → Nat → Option Signal
  | [], _ => none
  | (k', v') :: rest, k => if k' = k then some v' else dictGet rest k

/-- Deletion `del d[k]` on a Python dict (the key is present at most once in a dict
built by `dictInsert`; removal keeps the order of the other entries). -/
def dictRemove : List (Nat × Signal) → Nat → List (Nat × Signal)
  | [], _ => []
  | (k', v') :: rest, k => if k' = k then rest else (k', v') :: dictRemove rest k

/-! ## The `SignalStore` -/

/-- In-memory state of `SignalStore`: the `_signals` dict and the `_next_id`
counter.  The backing file path plays no role in the state itself; `save`
writes the document returned by `SignalStore.saveDoc` below. -/
structure SignalStore where
  signals : List (Nat × Signal) := []
  next_id : Nat := 1
  deriving Repr, DecidableEq

namespace SignalStore

/-- The operation `SignalStore.add`: set `s.id = self._next_id`, insert, bump the counter,
persist.  Returns the signal (with its assigned id) and the new store. -/
def add (st : SignalStore) (s : Signal) : Signal × SignalStore :=
  let s' := { s with id := st.next_id }
  (s', { signals := dictInsert st.signals s'.id s', next_id := st.next_id + 1 })

/-- The operation `SignalStore.get`. -/
def get (st : SignalStore) (sid : Nat) : Option Signal :=
  dictGet st.signals sid

/-- The operation `SignalStore.delete`: remove the record if present and report whether it
existed; an absent id leaves the store untouched. -/
def delete (st : SignalStore) (sid : Nat) : Bool × SignalStore :=
  match dictGet st.signals sid with
  | some _ => (true, { st with signals := dictRemove st.signals sid })
  | none => (false, st)

/-- The operation `SignalStore.update`: `self._signals[s.id] = s` unconditionally, then
persist — an upsert. -/
def update (st : SignalStore) (s : Signal) : SignalStore :=
  { st with signals := dictInsert st.signals s.id s }

end SignalStore

/-! ## Persistence (`SignalStore.save` / `SignalStore.load`)

`save` writes `{"next_id": …, "signals": {str(sid): asdict(s), …}}`;
`json.dump` turns the integer keys into decimal strings and `load` turns them
back with `int(k)`.  The decimal string of a key is modelled as its digit list
(`Nat.digits 10`), an injective image of the string; `asdict` and
`Signal(**d)` are the field-for-field conversions `Signal.to_dict` and
`Signal.from_dict`.  JSON carries numbers, strings, booleans and `null`
through unchanged. -/

/-- The dict produced by `asdict(s)`: one entry per dataclass field. -/
structure SignalDict where
  id : Nat
  chat_id : Int
  message_id : Option Nat
  symbol : String
  side : String
  entry : ℚ
  targets : List ℚ
  stop : Option ℚ
  note : String
  created_at : Nat
  active : Bool
  hit_targets : List Nat
  provider : String
  deriving Repr, DecidableEq

/-- The conversion `Signal.to_dict` (`asdict(self)`). -/
def Signal.to_dict (s : Signal) : SignalDict :=
  { id := s.id, chat_id := s.chat_id, message_id := s.message_id
    symbol := s.symbol, side := s.side, entry := s.entry, targets := s.targets
    stop := s.stop, note := s.note, created_at := s.created_at
    active := s.active, hit_targets := s.hit_targets, provider := s.provider }

/-- The conversion `Signal.from_dict` (`Signal(**d)`). -/
def Signal.from_dict (d : SignalDict) : Signal :=
  { id := d.id, chat_id := d.chat_id, message_id := d.message_id
    symbol := d.symbol, side := d.side, entry := d.entry, targets := d.targets
    stop := d.stop, note := d.note, created_at := d.created_at
    active := d.active, hit_targets := d.hit_targets, provider := d.provider }

/-- The persisted JSON document: the next-id counter and the signals keyed by
the decimal string of their id (kept as its digit list). -/
structure StoreDoc where
  next_id : Nat
  signals : List (List Nat × SignalDict)
  deriving Repr, DecidableEq

/-- The method `SignalStore.save`: the document written to `self.path`. -/
def SignalStore.saveDoc (st : SignalStore) : StoreDoc :=
  { next_id := st.next_id
    signals := st.signals.map fun kv => (Nat.digits 10 kv.1, kv.2.to_dict) }

/-- The method `SignalStore.load` from an existing document: `int(k)` on each key,
`Signal.from_dict` on each value, `data.get("next_id", 1)` for the counter
(`save` always writes the key, so the default is not taken here). -/
def SignalStore.loadDoc (doc : StoreDoc) : SignalStore :=
  { next_id := doc.next_id
    signals := doc.signals.map fun kv => (Nat.ofDigits 10 kv.1, Signal.from_dict kv.2) }

/-! ## `/addsignal` argument validation (`addsignal_cmd`) -/

/-- Value of a decimal digit string, most significant digit first
(the accumulator fold `int` performs). -/
def digitsVal (l : List Char) : Nat :=
  l.foldl (fun a c => a * 10 + (c.toNat - 48)) 0

/-- Python's `float(s)` on the plain decimal numerals the bot's arguments
use: optional sign, digits, optional `.` and fractional digits, at least one
digit overall; anything else raises (`none`). -/
def parseDecimal (s : String) : Option ℚ :=
  let signed : Bool × List Char :=
    match s.data with
    | '-' :: rest => (true, rest)
    | '+' :: rest => (false, rest)
    | cs => (false, cs)
  let intPart := signed.2.takeWhile fun c => c ≠ '.'
  let frac : List Char :=
    match signed.2.dropWhile fun c => c ≠ '.' with
    | [] => []
    | _ :: f => f
  if intPart.all Char.isDigit ∧ frac.all Char.isDigit ∧ (intPart ≠ [] ∨ frac ≠ []) then
    let v : ℚ := (digitsVal intPart : ℚ) + (digitsVal frac : ℚ) / ((10 : ℚ) ^ frac.length)
    some (if signed.1 then -v else v)
  else none

/-- Lookup `kv.get(k)` on the dict built by `parse_kv_args`. -/
def kvGet : List (String × String) → String → Option String
  | [], _ => none
  | (k', v) :: rest, k => if k' = k then some v else kvGet rest k

/-- Python `str.upper()` (character-wise upper-casing). -/
def pyUpper (s : String) : String := ⟨s.data.map Char.toUpper⟩

/-- Python `str.split(",")`: splitting on every comma, keeping empty pieces;
an empty string yields `[""]`. -/
def splitCommaAux : List Char → List Char → List String
  | [], acc => [⟨acc.reverse⟩]
  | c :: rest, acc =>
    if c = ',' then (⟨acc.reverse⟩ : String) :: splitCommaAux rest []
    else splitCommaAux rest (c :: acc)

/-- Python `str.split(",")`. -/
def splitComma (s : String) : List String := splitCommaAux s.data []

/-- The fields read out of the `/addsignal` arguments by the `try` block. -/
structure ParsedArgs where
  symbol : String
  side : String
  entry : ℚ
  targets : List ℚ
  stop : Option ℚ
  note : String
  deriving Repr, DecidableEq

/-- The expression `kv.get("side", "LONG").upper()`. -/
def sideOf (kv : List (String × String)) : String :=
  pyUpper ((kvGet kv "side").getD "LONG")

/-- The expression `float(kv.get("entry")) if kv.get("entry") else 0.0`: a missing or empty
value falls back to `0.0`, anything else goes through `float` (which may
raise). -/
def entryOpt (kv : List (String × String)) : Option ℚ :=
  match kvGet kv "entry" with
  | none => some 0
  | some e => if e = "" then some 0 else parseDecimal e

/-- The comprehension `[float(x) for x in kv.get("targets", "").split(",") if x]`: the raw
string is split on commas, empty pieces are dropped *before* conversion —
so a missing or empty `targets` value yields the empty list without any
`float` call, hence without any chance to raise. -/
def targetsOpt (kv : List (String × String)) : Option (List ℚ) :=
  ((splitComma ((kvGet kv "targets").getD "")).filter
    fun x => x != "").mapM parseDecimal

/-- The expression `float(kv["stop"]) if "stop" in kv else None`: converted whenever the key
is present (an empty value raises), absent means no stop. -/
def stopOpt (kv : List (String × String)) : Option (Option ℚ) :=
  match kvGet kv "stop" with
  | none => some none
  | some v => (parseDecimal v).map some

/-- The `try` block of `addsignal_cmd`: defaults for missing keys, upper-case
normalisation, `float` conversions, and the `side ∈ {LONG, SHORT}` check.
Any failure (`none`) is answered with the format-error reply and the handler
returns without touching the store. -/
def addsignalValidate (kv : List (String × String)) : Option ParsedArgs :=
  match entryOpt kv, targetsOpt kv, stopOpt kv with
  | some entry, some targets, some stop =>
    if sideOf kv = "LONG" ∨ sideOf kv = "SHORT" then
      some { symbol := pyUpper ((kvGet kv "symbol").getD "EUR/USD")
             side := sideOf kv, entry := entry, targets := targets
             stop := stop, note := (kvGet kv "note").getD "" }
    else none
  | _, _, _ => none

/-- The handler `addsignal_cmd` after access control: validate; on failure reply with the
format error and leave the store alone (`none`); on success build the
`Signal`, `STORE.add` it, post the card (the channel answers with message id
`mid`), set `message_id` and `STORE.update`.  `classDefTime` is the import
instant (see `defaultCreatedAt`), `now` the wall clock at this command. -/
def addsignal_cmd (classDefTime now mid : Nat) (st : SignalStore)
    (kv : List (String × String)) : SignalStore × Option Signal :=
  match addsignalValidate kv with
  | none => (st, none)
  | some p =>
    let r := st.add (newSignal classDefTime now p.symbol p.side p.entry
      p.targets p.stop p.note)
    let s := { r.1 with message_id := some mid }
    (r.2.update s, some s)

/-! ## The monitoring engine (`monitor_prices`) -/

/-- A notification event sent through `notify_update`: a "Target Hit" message
(with signal id, 0-based target index, target price and observed price) or a
"Stop Loss" message (with signal id, stop price and observed price). -/
inductive Event where
  | targetHit (sid : Nat) (idx : Nat) (tgt : ℚ) (price : ℚ)
  | stopHit (sid : Nat) (stop : ℚ) (price : ℚ)
  deriving Repr, DecidableEq

/-- The `for idx, tgt in enumerate(s.targets)` loop of `monitor_prices`,
having already discarded the first `idx` targets: skip indices already in
`hits`, otherwise compare `price` against the target according to `side`, and
on a hit append the index to the running `hit_targets` list.  Returns the
final `hit_targets` list and the indices newly hit, in loop order. -/
def targetsGo (side : String) (price : ℚ) :
    List ℚ → Nat → List Nat → List Nat × List Nat
  | [], _, hits => (hits, [])
  | tgt :: rest, idx, hits =>
    if idx ∈ hits then targetsGo side price rest (idx + 1) hits
    else if (side = "LONG" ∧ price ≥ tgt) ∨ (side = "SHORT" ∧ price ≤ tgt) then
      let r := targetsGo side price rest (idx + 1) (hits ++ [idx])
      (r.1, idx :: r.2)
    else targetsGo side price rest (idx + 1) hits

/-- The stop-loss block of `monitor_prices`: only runs when a stop is
configured and the signal is (still) active; a LONG stop triggers on
`price ≤ stop`, a SHORT stop on `price ≥ stop`; on trigger the signal is
deactivated and one "Stop Loss" event is emitted. -/
def stopPass (s : Signal) (price : ℚ) : Signal × List Event :=
  match s.stop with
  | some stp =>
    if s.active = true ∧
        ((s.side = "LONG" ∧ price ≤ stp) ∨ (s.side = "SHORT" ∧ price ≥ stp)) then
      ({ s with active := false }, [Event.stopHit s.id stp price])
    else (s, [])
  | none => (s, [])

/-- One evaluation of an active signal at an observed price: the targets loop
(each newly hit index is appended to `hit_targets` and announced, persisted
via `update` as it goes), then the stop-loss check.  Returns the mutated
signal and the emitted events in order. -/
def evalActiveSignal (s : Signal) (price : ℚ) : Signal × List Event :=
  let t := targetsGo s.side price s.targets 0 s.hit_targets
  let s1 := { s with hit_targets := t.1 }
  let tEvents := t.2.map fun i => Event.targetHit s.id i (s.targets.getD i 0) price
  let r := stopPass s1 price
  (r.1, tEvents ++ r.2)

/-- One cycle's treatment of a single signal whose price fetch succeeded:
inactive signals are skipped untouched (`if not s.active: continue`). -/
def evalSignal (s : Signal) (price : ℚ) : Signal × List Event :=
  if s.active = true then evalActiveSignal s price else (s, [])

/-- Iterated monitoring of one signal: each element of `prices` is the price
observed for this signal in one successful cycle. -/
def evalCycles : Signal → List ℚ → Signal × List Event
  | s, [] => (s, [])
  | s, p :: ps =>
    let r := evalSignal s p
    let r' := evalCycles r.1 ps
    (r'.1, r.2 ++ r'.2)

/-- The sort key of `SignalStore.all`: `(not x.active, x.id)`. -/
def allLE (a b : Signal) : Bool :=
  let ka : Nat := if a.active then 0 else 1
  let kb : Nat := if b.active then 0 else 1
  ka < kb || (ka = kb && a.id ≤ b.id)

/-- The method `SignalStore.all`: the dict's values sorted by `(not active, id)`
(Python's `sorted` is stable; keys are distinct in stores reachable through
the store operations, so any stable sort gives this order). -/
def SignalStore.all (st : SignalStore) : List Signal :=
  List.insertionSort (fun a b => allLE a b = true) (st.signals.map Prod.snd)

/-- The body of one monitoring cycle over an already-taken snapshot, inside
the `try`: walk the snapshot in order; skip inactive signals; fetch the price
(`fetch sym = none` models `td_get_price` raising); a failed fetch propagates
out of the `for` loop to the blanket `except`, so the remaining snapshot is
abandoned — the result is the dict as mutated so far, the events emitted so
far, and `true` for "this cycle was aborted by an exception". -/
def runSnap (fetch : String → Option ℚ) :
    List Signal → List (Nat × Signal) → List (Nat × Signal) × List Event × Bool
  | [], sigs => (sigs, [], false)
  | s :: rest, sigs =>
    if s.active = true then
      match fetch s.symbol with
      | none => (sigs, [], true)
      | some price =>
        let r := evalSignal s price
        let sigs' := dictInsert sigs r.1.id r.1
        let k := runSnap fetch rest sigs'
        (k.1, r.2 ++ k.2.1, k.2.2)
    else runSnap fetch rest sigs

/-- One full monitoring cycle: snapshot `STORE.all()`, then run the loop body.
`next_id` is never touched by the monitor.  The `Bool` records whether the
cycle ended in the `except` branch (logged, slept, loop continues). -/
def runCycle (fetch : String → Option ℚ) (st : SignalStore) :
    SignalStore × List Event × Bool :=
  let r := runSnap fetch st.all st.signals
  ({ st with signals := r.1 }, r.2.1, r.2.2)

/-- Many monitoring cycles: one fetch function per cycle.  The `while True`
loop survives an aborted cycle (the exception is caught and logged), so the
next cycle always runs. -/
def runCycles : List (String → Option ℚ) → SignalStore → SignalStore × List Event
  | [], st => (st, [])
  | f :: fs, st =>
    let r := runCycle f st
    let r' := runCycles fs r.1
    (r'.1, r.2.1 ++ r'.2)

/-- Count (`countP`) of the "Target Hit for index `idx` of signal `sid`" events. -/
def countTargetHits (sid idx : Nat) (evs : List Event) : Nat :=
  evs.countP fun e =>
    match e with
    | Event.targetHit j i _ _ => j = sid ∧ i = idx
    | _ => false

/-- Count (`countP`) of the "Stop Loss for signal `sid`" events. -/
def countStopHits (sid : Nat) (evs : List Event) : Nat :=
  evs.countP fun e =>
    match e with
    | Event.stopHit j _ _ => j = sid
    | _ => false

/-- The indices newly appended to `hit_targets` when one cycle evaluates a
signal at an observed price (empty for an inactive signal, which the cycle
skips). -/
def newHits (s : Signal) (price : ℚ) : List Nat :=
  if s.active = true then (targetsGo s.side price s.targets 0 s.hit_targets).2
  else []

/-- A fixed concrete signal used for concrete witness instantiations. -/
def sampleSignal : Signal :=
  { id := 3, chat_id := 0, symbol := "XAU/USD", side := "SHORT"
    targets := [2, 1], stop := some 5, created_at := 0 }

/-- Concrete fixture: the signal whose price fetch fails (symbol `AAA`). -/
def wSigA : Signal :=
  { id := 1, chat_id := 0, symbol := "AAA", side := "LONG"
    targets := [1], created_at := 0 }

/-- Concrete fixture: a second signal, evaluated after `wSigA` in the cycle
order, whose target 0 would be hit at price 2. -/
def wSigB : Signal :=
  { id := 2, chat_id := 0, symbol := "BBB", side := "LONG"
    targets := [1], created_at := 0 }

/-- Concrete fixture: the fetch that raises for symbol `AAA` and returns
price 2 for every other symbol. -/
def wFetch : String → Option ℚ := fun sym => if sym = "AAA" then none else some 2

/-- Concrete fixture: a store holding `wSigA` and `wSigB`. -/
def wStore : SignalStore := { signals := [(1, wSigA), (2, wSigB)], next_id := 3 }

/-! ## Basic dictionary lemmas -/

theorem dictGet_dictInsert_self (l : List (Nat × Signal)) (k : Nat) (v : Signal) :
    dictGet (dictInsert l k v) k = some v := by
  induction l with
  | nil => simp [dictInsert, dictGet]
  | cons hd tl ih =>
    by_cases h : hd.1 = k
    · simp [dictInsert, dictGet, h]
    · simp [dictInsert, dictGet, h, ih]

theorem dictGet_dictInsert_ne (l : List (Nat × Signal)) (k k' : Nat) (v : Signal)
    (h : k' ≠ k) : dictGet (dictInsert l k v) k' = dictGet l k' := by
  induction l with
  | nil => simp [dictInsert, dictGet, Ne.symm h]
  | cons hd tl ih =>
    by_cases hk : hd.1 = k
    · subst hk
      simp [dictInsert, dictGet, Ne.symm h]
    · by_cases hk' : hd.1 = k'
      · simp [dictInsert, dictGet, hk, hk', h]
      · simp [dictInsert, dictGet, hk, hk', ih]

/-! ## Lemmas about the targets loop -/

theorem targetsGo_fst (side : String) (price : ℚ) (ts : List ℚ) (start : Nat)
    (hits : List Nat) :
    (targetsGo side price ts start hits).1 =
      hits ++ (targetsGo side price ts start hits).2 := by
  induction ts generalizing start hits with
  | nil => simp [targetsGo]
  | cons t rest ih =>
    by_cases hm : start ∈ hits
    · simp [targetsGo, hm, ih]
    · by_cases hc : (side = "LONG" ∧ price ≥ t) ∨ (side = "SHORT" ∧ price ≤ t)
      · simp [targetsGo, hm, hc, ih]
      · simp [targetsGo, hm, hc, ih]

theorem targetsGo_new_ge (side : String) (price : ℚ) (ts : List ℚ) (start : Nat)
    (hits : List Nat) :
    ∀ j ∈ (targetsGo side price ts start hits).2, start ≤ j := by
  induction ts generalizing start hits with
  | nil => simp [targetsGo]
  | cons t rest ih =>
    intro j hj
    by_cases hm : start ∈ hits
    · simp only [targetsGo, if_pos hm] at hj
      exact Nat.le_of_succ_le (ih (start + 1) hits j hj)
    · by_cases hc : (side = "LONG" ∧ price ≥ t) ∨ (side = "SHORT" ∧ price ≤ t)
      · simp only [targetsGo, if_neg hm, if_pos hc, List.mem_cons] at hj
        rcases hj with rfl | hj
        · exact Nat.le_refl j
        · exact Nat.le_of_succ_le (ih (start + 1) (hits ++ [start]) j hj)
      · simp only [targetsGo, if_neg hm, if_neg hc] at hj
        exact Nat.le_of_succ_le (ih (start + 1) hits j hj)

theorem targetsGo_new_not_mem (side : String) (price : ℚ) (ts : List ℚ) (start : Nat)
    (hits : List Nat) :
    ∀ j ∈ (targetsGo side price ts start hits).2, j ∉ hits := by
  induction ts generalizing start hits with
  | nil => simp [targetsGo]
  | cons t rest ih =>
    intro j hj
    by_cases hm : start ∈ hits
    · simp only [targetsGo, if_pos hm] at hj
      exact ih (start + 1) hits j hj
    · by_cases hc : (side = "LONG" ∧ price ≥ t) ∨ (side = "SHORT" ∧ price ≤ t)
      · simp only [targetsGo, if_neg hm, if_pos hc, List.mem_cons] at hj
        rcases hj with rfl | hj
        · exact hm
        · have := ih (start + 1) (hits ++ [start]) j hj
          intro hmem
          exact this (List.mem_append_left _ hmem)
      · simp only [targetsGo, if_neg hm, if_neg hc] at hj
        exact ih (start + 1) hits j hj

theorem targetsGo_new_nodup (side : String) (price : ℚ) (ts : List ℚ) (start : Nat)
    (hits : List Nat) : (targetsGo side price ts start hits).2.Nodup := by
  induction ts generalizing start hits with
  | nil => simp [targetsGo]
  | cons t rest ih =>
    by_cases hm : start ∈ hits
    · simpa only [targetsGo, if_pos hm] using ih (start + 1) hits
    · by_cases hc : (side = "LONG" ∧ price ≥ t) ∨ (side = "SHORT" ∧ price ≤ t)
      · simp only [targetsGo, if_neg hm, if_pos hc, List.nodup_cons]
        refine ⟨fun hmem => ?_, ih (start + 1) (hits ++ [start])⟩
        have := targetsGo_new_ge side price rest (start + 1) (hits ++ [start]) start hmem
        omega
      · simpa only [targetsGo, if_neg hm, if_neg hc] using ih (start + 1) hits

theorem targetsGo_mem_iff (side : String) (price : ℚ) (ts : List ℚ) (start : Nat)
    (hits : List Nat) (idx : Nat) (hnot : idx ∉ hits) (hlow : start ≤ idx)
    (hhi : idx < start + ts.length) :
    idx ∈ (targetsGo side price ts start hits).2 ↔
      ((side = "LONG" ∧ price ≥ ts.getD (idx - start) 0) ∨
       (side = "SHORT" ∧ price ≤ ts.getD (idx - start) 0)) := by
  induction ts generalizing start hits with
  | nil => simp at hhi; omega
  | cons t rest ih =>
    rcases Nat.eq_or_lt_of_le hlow with rfl | hstart
    · simp only [Nat.sub_self, List.getD_cons_zero]
      by_cases hc : (side = "LONG" ∧ price ≥ t) ∨ (side = "SHORT" ∧ price ≤ t)
      · simp only [targetsGo, if_neg hnot, if_pos hc, List.mem_cons]
        refine ⟨fun _ => hc, fun _ => ?_⟩
        simp
      · simp only [targetsGo, if_neg hnot, if_neg hc]
        constructor
        · intro hmem
          have := targetsGo_new_ge side price rest (start + 1) hits start hmem
          omega
        · exact fun h => absurd h hc
    · have hgetD : (t :: rest).getD (idx - start) 0 = rest.getD (idx - (start + 1)) 0 := by
        have h1 : idx - start = (idx - (start + 1)) + 1 := by omega
        rw [h1]
        rfl
      rw [hgetD]
      by_cases hm : start ∈ hits
      · rw [show targetsGo side price (t :: rest) start hits =
            targetsGo side price rest (start + 1) hits from by
          simp [targetsGo, hm]]
        exact ih (start + 1) hits hnot (by omega) (by simp at hhi ⊢; omega)
      · by_cases hc : (side = "LONG" ∧ price ≥ t) ∨ (side = "SHORT" ∧ price ≤ t)
        · have hne : idx ∉ hits ++ [start] := by
            simp only [List.mem_append, List.mem_singleton]
            rintro (h | rfl)
            · exact hnot h
            · omega
          rw [show (targetsGo side price (t :: rest) start hits).2 =
              start :: (targetsGo side price rest (start + 1) (hits ++ [start])).2 from by
            simp [targetsGo, hm, hc]]
          rw [List.mem_cons]
          have hiff := ih (start + 1) (hits ++ [start]) hne (by omega)
            (by simp at hhi ⊢; omega)
          constructor
          · rintro (rfl | hmem)
            · omega
            · exact hiff.mp hmem
          · intro h
            exact Or.inr (hiff.mpr h)
        · rw [show targetsGo side price (t :: rest) start hits =
              targetsGo side price rest (start + 1) hits from by
            simp [targetsGo, hm, hc]]
          exact ih (start + 1) hits hnot (by omega) (by simp at hhi ⊢; omega)

/-! ## Lemmas about one signal evaluation -/

theorem evalSignal_inactive (s : Signal) (price : ℚ) (h : s.active = false) :
    evalSignal s price = (s, []) := by
  simp [evalSignal, h]

theorem evalActiveSignal_spec (s : Signal) (price : ℚ) :
    evalActiveSignal s price =
      ((stopPass { s with hit_targets :=
          s.hit_targets ++ (targetsGo s.side price s.targets 0 s.hit_targets).2 } price).1,
        (targetsGo s.side price s.targets 0 s.hit_targets).2.map
          (fun i => Event.targetHit s.id i (s.targets.getD i 0) price) ++
        (stopPass { s with hit_targets :=
          s.hit_targets ++ (targetsGo s.side price s.targets 0 s.hit_targets).2 } price).2) := by
  unfold evalActiveSignal
  simp only [targetsGo_fst]

theorem stopPass_cases (s : Signal) (price : ℚ) :
    stopPass s price = (s, []) ∨
      ∃ stp, s.stop = some stp ∧
        stopPass s price = ({ s with active := false }, [Event.stopHit s.id stp price]) := by
  unfold stopPass
  cases hS : s.stop with
  | none => exact Or.inl rfl
  | some stp =>
    by_cases hc : s.active = true ∧
        ((s.side = "LONG" ∧ price ≤ stp) ∨ (s.side = "SHORT" ∧ price ≥ stp))
    · exact Or.inr ⟨stp, rfl, by simp [hc]⟩
    · exact Or.inl (by simp [hc])

theorem evalSignal_id (s : Signal) (price : ℚ) : (evalSignal s price).1.id = s.id := by
  unfold evalSignal
  by_cases h : s.active = true <;> simp [h]
  rw [evalActiveSignal_spec]
  rcases stopPass_cases { s with hit_targets :=
      s.hit_targets ++ (targetsGo s.side price s.targets 0 s.hit_targets).2 } price with
    hcase | ⟨stp, _, hcase⟩ <;> simp [hcase]

theorem evalSignal_hit_targets (s : Signal) (price : ℚ) :
    (evalSignal s price).1.hit_targets = s.hit_targets ++ newHits s price := by
  unfold evalSignal newHits
  by_cases h : s.active = true <;> simp [h]
  rw [evalActiveSignal_spec]
  rcases stopPass_cases { s with hit_targets :=
      s.hit_targets ++ (targetsGo s.side price s.targets 0 s.hit_targets).2 } price with
    hcase | ⟨stp, _, hcase⟩ <;> simp [hcase]

theorem newHits_not_mem (s : Signal) (price : ℚ) :
    ∀ j ∈ newHits s price, j ∉ s.hit_targets := by
  unfold newHits
  by_cases h : s.active = true <;> simp [h]
  exact fun j hj => targetsGo_new_not_mem s.side price s.targets 0 s.hit_targets j hj

theorem newHits_nodup (s : Signal) (price : ℚ) : (newHits s price).Nodup := by
  unfold newHits
  by_cases h : s.active = true <;> simp [h]
  exact targetsGo_new_nodup s.side price s.targets 0 s.hit_targets

theorem countTargetHits_append (sid idx : Nat) (l l' : List Event) :
    countTargetHits sid idx (l ++ l') =
      countTargetHits sid idx l + countTargetHits sid idx l' := by
  simp [countTargetHits, List.countP_append]

theorem countTargetHits_map (sid idx : Nat) (f : Nat → ℚ) (price : ℚ) (new : List Nat) :
    countTargetHits sid idx
      (new.map fun i => Event.targetHit sid i (f i) price) = new.count idx := by
  induction new with
  | nil => simp [countTargetHits]
  | cons hd tl ih =>
    by_cases h : hd = idx <;>
      simp [countTargetHits, List.countP_cons, List.count_cons, h] at ih ⊢ <;>
        omega

theorem evalSignal_count (s : Signal) (price : ℚ) (idx : Nat) :
    countTargetHits s.id idx (evalSignal s price).2 =
      if idx ∈ newHits s price then 1 else 0 := by
  unfold evalSignal newHits
  by_cases h : s.active = true <;> simp [h]
  · rw [evalActiveSignal_spec]
    rcases stopPass_cases { s with hit_targets :=
        s.hit_targets ++ (targetsGo s.side price s.targets 0 s.hit_targets).2 } price with
      hcase | ⟨stp, _, hcase⟩ <;>
        rw [hcase] <;>
          simp only [countTargetHits_append, countTargetHits_map] <;>
            rw [List.count_eq_of_nodup (targetsGo_new_nodup _ _ _ _ _)] <;>
              simp [countTargetHits]
  · simp [countTargetHits]

theorem countStopHits_append (sid : Nat) (l l' : List Event) :
    countStopHits sid (l ++ l') = countStopHits sid l + countStopHits sid l' := by
  simp [countStopHits, List.countP_append]

theorem countStopHits_map_zero (sid : Nat) (f : Nat → ℚ) (price : ℚ) (new : List Nat) :
    countStopHits sid (new.map fun i => Event.targetHit sid i (f i) price) = 0 := by
  induction new with
  | nil => simp [countStopHits]
  | cons hd tl ih => simp [countStopHits, List.countP_cons] at ih ⊢

/-! ## Lemmas about iterated cycles and the cycle body -/

theorem evalCycles_nil (s : Signal) : evalCycles s [] = (s, []) := rfl

theorem evalCycles_cons (s : Signal) (p : ℚ) (ps : List ℚ) :
    evalCycles s (p :: ps) =
      ((evalCycles (evalSignal s p).1 ps).1,
        (evalSignal s p).2 ++ (evalCycles (evalSignal s p).1 ps).2) := rfl

theorem evalCycles_inactive (s : Signal) (prices : List ℚ) (h : s.active = false) :
    evalCycles s prices = (s, []) := by
  induction prices with
  | nil => rfl
  | cons p ps ih => simp [evalCycles_cons, evalSignal_inactive s p h, ih]

theorem evalCycles_hit_absorbed (s : Signal) (prices : List ℚ) (idx : Nat)
    (h : idx ∈ s.hit_targets) :
    idx ∈ (evalCycles s prices).1.hit_targets ∧
      countTargetHits s.id idx (evalCycles s prices).2 = 0 := by
  induction prices generalizing s with
  | nil => exact ⟨h, by simp [evalCycles_nil, countTargetHits]⟩
  | cons p ps ih =>
    have hmem' : idx ∈ (evalSignal s p).1.hit_targets := by
      rw [evalSignal_hit_targets]
      exact List.mem_append_left _ h
    have hrest := ih (evalSignal s p).1 hmem'
    rw [evalSignal_id] at hrest
    have hnew : idx ∉ newHits s p := fun hn => newHits_not_mem s p idx hn h
    refine ⟨hrest.1, ?_⟩
    rw [evalCycles_cons]
    simp only [countTargetHits_append, evalSignal_count, if_neg hnew, hrest.2]

theorem runSnap_single (fetch : String → Option ℚ) (s : Signal)
    (sigs : List (Nat × Signal)) (price : ℚ) (hA : s.active = true)
    (hF : fetch s.symbol = some price) :
    runSnap fetch [s] sigs =
      (dictInsert sigs s.id (evalSignal s price).1, (evalSignal s price).2, false) := by
  simp [runSnap, hA, hF, evalSignal_id]

theorem runSnap_nil (fetch : String → Option ℚ) (sigs : List (Nat × Signal)) :
    runSnap fetch [] sigs = (sigs, [], false) := rfl

theorem runSnap_cons_fail (fetch : String → Option ℚ) (s : Signal)
    (rest : List Signal) (sigs : List (Nat × Signal)) (hA : s.active = true)
    (hF : fetch s.symbol = none) :
    runSnap fetch (s :: rest) sigs = (sigs, [], true) := by
  simp [runSnap, hA, hF]

theorem runSnap_append (fetch : String → Option ℚ) (pre rest : List Signal)
    (sigs : List (Nat × Signal)) (h : (runSnap fetch pre sigs).2.2 = false) :
    runSnap fetch (pre ++ rest) sigs =
      ((runSnap fetch rest (runSnap fetch pre sigs).1).1,
        (runSnap fetch pre sigs).2.1 ++
          (runSnap fetch rest (runSnap fetch pre sigs).1).2.1,
        (runSnap fetch rest (runSnap fetch pre sigs).1).2.2) := by
  induction pre generalizing sigs with
  | nil => simp [runSnap]
  | cons s pre ih =>
    by_cases hA : s.active = true
    · cases hF : fetch s.symbol with
      | none => simp [runSnap, hA, hF] at h
      | some price =>
        have h' : (runSnap fetch pre
            (dictInsert sigs (evalSignal s price).1.id (evalSignal s price).1)).2.2 =
              false := by
          simpa [runSnap, hA, hF] using h
        have ihh := ih _ h'
        simp only [List.cons_append, runSnap, if_pos hA, hF, List.append_eq] at ihh ⊢
        rw [ihh]
        simp [List.append_assoc]
    · have hA' : s.active = false := by
        cases hval : s.active
        · rfl
        · exact absurd hval hA
      have h' : (runSnap fetch pre sigs).2.2 = false := by
        simpa [runSnap, hA'] using h
      have ihh := ih _ h'
      simp only [List.cons_append, runSnap, hA', Bool.false_eq_true, if_false,
        List.append_eq] at ihh ⊢
      rw [ihh]

theorem runSnap_untouched (fetch : String → Option ℚ) (snap : List Signal)
    (sigs : List (Nat × Signal)) (k : Nat) (h : k ∉ snap.map Signal.id) :
    dictGet (runSnap fetch snap sigs).1 k = dictGet sigs k := by
  induction snap generalizing sigs with
  | nil => rfl
  | cons s rest ih =>
    simp only [List.map_cons, List.mem_cons, not_or] at h
    by_cases hA : s.active = true
    · cases hF : fetch s.symbol with
      | none => simp [runSnap, hA, hF]
      | some price =>
        simp only [runSnap, if_pos hA, hF]
        rw [ih _ h.2, dictGet_dictInsert_ne]
        rw [evalSignal_id]
        exact h.1
    · have hA' : s.active = false := by
        cases hval : s.active
        · rfl
        · exact absurd hval hA
      simp only [runSnap, hA']
      simp only [Bool.false_eq_true, if_false]
      exact ih _ h.2

/-! ## Claims -/

/-- C1: For every signal and target index, across any number of
monitoring cycles with an arbitrary (possibly oscillating) price sequence:
`hit_targets` only grows (the final list extends the initial one), a
"target hit" notification for that index is emitted at most once, and no
index is ever added twice (the list stays duplicate-free). -/
theorem C1_target_alerts_at_most_once (s : Signal) (prices : List ℚ) (idx : Nat)
    (h : s.hit_targets.Nodup) :
    (∃ tl, (evalCycles s prices).1.hit_targets = s.hit_targets ++ tl) ∧
    countTargetHits s.id idx (evalCycles s prices).2 ≤ 1 ∧
    (evalCycles s prices).1.hit_targets.Nodup := by
  induction prices generalizing s with
  | nil =>
    exact ⟨⟨[], by simp [evalCycles_nil]⟩, by simp [evalCycles_nil, countTargetHits], h⟩
  | cons p ps ih =>
    have hset := evalSignal_hit_targets s p
    have hnodup' : (evalSignal s p).1.hit_targets.Nodup := by
      rw [hset]
      exact List.Nodup.append h (newHits_nodup s p)
        (fun a ha hb => newHits_not_mem s p a hb ha)
    obtain ⟨⟨tl, htl⟩, hcnt, hnd⟩ := ih (evalSignal s p).1 hnodup'
    rw [evalSignal_id] at hcnt
    refine ⟨⟨newHits s p ++ tl, ?_⟩, ?_, ?_⟩
    · rw [evalCycles_cons]
      rw [htl, hset, List.append_assoc]
    · rw [evalCycles_cons]
      simp only [countTargetHits_append, evalSignal_count]
      by_cases hmem : idx ∈ newHits s p
      · have : idx ∈ (evalSignal s p).1.hit_targets := by
          rw [hset]
          exact List.mem_append_right _ hmem
        have habs := (evalCycles_hit_absorbed (evalSignal s p).1 ps idx this).2
        rw [evalSignal_id] at habs
        simp [hmem, habs]
      · simp only [if_neg hmem, Nat.zero_add]
        exact hcnt
    · rw [evalCycles_cons]
      exact hnd

/-- Witness for `C1_target_alerts_at_most_once`: the concrete SHORT signal
`sampleSignal`, monitored for two cycles at price 1 (both targets hit in the
first cycle, nothing re-alerted in the second). -/
theorem C1_target_alerts_at_most_once_witness :
    (∃ tl, (evalCycles sampleSignal [1, 1]).1.hit_targets =
      sampleSignal.hit_targets ++ tl) ∧
    countTargetHits sampleSignal.id 0 (evalCycles sampleSignal [1, 1]).2 ≤ 1 ∧
    (evalCycles sampleSignal [1, 1]).1.hit_targets.Nodup :=
  C1_target_alerts_at_most_once sampleSignal [1, 1] 0 (by decide)

/-- C4: For an active signal and a target index not yet in `hit_targets`,
one cycle emits a "target hit" notification for that index exactly when, for
side LONG, `price ≥ target`, and, for side SHORT, `price ≤ target` — and this
is independent of the other targets (the condition mentions only the one
target price). -/
theorem C4_target_hit_condition (s : Signal) (price : ℚ) (idx : Nat)
    (hA : s.active = true) (hIdx : idx < s.targets.length)
    (hNot : idx ∉ s.hit_targets) :
    Event.targetHit s.id idx (s.targets.getD idx 0) price ∈ (evalSignal s price).2 ↔
      ((s.side = "LONG" ∧ price ≥ s.targets.getD idx 0) ∨
       (s.side = "SHORT" ∧ price ≤ s.targets.getD idx 0)) := by
  have hact : evalSignal s price = evalActiveSignal s price := by
    simp [evalSignal, hA]
  rw [hact, evalActiveSignal_spec]
  have hmem := targetsGo_mem_iff s.side price s.targets 0 s.hit_targets idx hNot
    (Nat.zero_le idx) (by omega)
  simp only [Nat.sub_zero] at hmem
  rw [← hmem]
  simp only [List.mem_append, List.mem_map]
  constructor
  · rintro (⟨i, hi, heq⟩ | hstop)
    · obtain ⟨-, rfl, -, -⟩ := Event.targetHit.inj heq
      exact hi
    · exfalso
      rcases stopPass_cases { s with hit_targets :=
          s.hit_targets ++ (targetsGo s.side price s.targets 0 s.hit_targets).2 } price with
        hcase | ⟨stp, _, hcase⟩ <;> rw [hcase] at hstop <;> simp at hstop
  · exact fun hmem' => Or.inl ⟨idx, hmem', rfl⟩

/-- Witness for `C4_target_hit_condition`: `sampleSignal` (SHORT) at observed
price 1 hits its target index 1 (price `1 ≤ 1`), so the notification for that
index is emitted. -/
theorem C4_target_hit_condition_witness :
    Event.targetHit sampleSignal.id 1 (sampleSignal.targets.getD 1 0) 1 ∈
      (evalSignal sampleSignal 1).2 :=
  (C4_target_hit_condition sampleSignal 1 1 (by decide) (by decide)
    (by decide)).mpr (by decide)

/-- C5: For an active signal with a configured stop: the stop triggers
exactly when, for LONG, `price ≤ stop`, and, for SHORT, `price ≥ stop`
(exactly one "stop hit" notification in that cycle, none otherwise); on
trigger the signal's `active` flag becomes false and the record is persisted
into the signals dict via `update`; every later cycle skips the now-inactive
signal entirely (no further mutation, no further alert). -/
theorem C5_stop_loss_behaviour (s : Signal) (price stp : ℚ)
    (hA : s.active = true) (hS : s.stop = some stp) :
    (countStopHits s.id (evalSignal s price).2 =
      if (s.side = "LONG" ∧ price ≤ stp) ∨ (s.side = "SHORT" ∧ price ≥ stp)
      then 1 else 0) ∧
    ((s.side = "LONG" ∧ price ≤ stp) ∨ (s.side = "SHORT" ∧ price ≥ stp) →
      (evalSignal s price).1.active = false ∧
      ∀ prices, evalCycles (evalSignal s price).1 prices = ((evalSignal s price).1, [])) ∧
    (¬((s.side = "LONG" ∧ price ≤ stp) ∨ (s.side = "SHORT" ∧ price ≥ stp)) →
      (evalSignal s price).1.active = true) ∧
    (∀ (fetch : String → Option ℚ) (sigs : List (Nat × Signal)),
      fetch s.symbol = some price →
        runSnap fetch [s] sigs =
          (dictInsert sigs s.id (evalSignal s price).1, (evalSignal s price).2, false)) := by
  have hact : evalSignal s price = evalActiveSignal s price := by
    simp [evalSignal, hA]
  refine ⟨?_, ?_, ?_, fun fetch sigs hF => runSnap_single fetch s sigs price hA hF⟩
  · rw [hact, evalActiveSignal_spec]
    rw [countStopHits_append, countStopHits_map_zero]
    unfold stopPass
    simp only [hS]
    by_cases hc : (s.side = "LONG" ∧ price ≤ stp) ∨ (s.side = "SHORT" ∧ price ≥ stp)
    · simp [hA, hc, countStopHits]
    · simp [hA, hc, countStopHits]
  · intro hc
    have hfalse : (evalSignal s price).1.active = false := by
      rw [hact, evalActiveSignal_spec]
      unfold stopPass
      simp [hS, hA, hc]
    exact ⟨hfalse, fun prices => evalCycles_inactive _ prices hfalse⟩
  · intro hc
    rw [hact, evalActiveSignal_spec]
    unfold stopPass
    simp [hS, hA, hc]

/-- Witness for `C5_stop_loss_behaviour`: `sampleSignal` (SHORT, stop 5) at
observed price 6 stops out — it becomes inactive and a later cycle at price 7
leaves it untouched with no alert. -/
theorem C5_stop_loss_behaviour_witness :
    (evalSignal sampleSignal 6).1.active = false ∧
    evalCycles (evalSignal sampleSignal 6).1 [7] = ((evalSignal sampleSignal 6).1, []) :=
  have h := (C5_stop_loss_behaviour sampleSignal 6 5 (by decide) (by decide)).2.1
    (by decide)
  ⟨h.1, h.2 [7]⟩

/-- C2 counterexample: one failed fetch aborts the remainder of the
cycle: in the concrete store `wStore`, signal 1 (`AAA`) fails its fetch and
signal 2 (`BBB`) — which at the fetched price 2 would have hit its target 0
and emitted a notification — is not evaluated at all: the cycle ends in the
`except` branch with no event emitted and every record unchanged.  This
refutes the claim that every other signal in the same cycle is still
evaluated. -/
theorem C2_fetch_failure_aborts_rest_of_cycle :
    runCycle wFetch wStore = (wStore, [], true) ∧
    (evalSignal wSigB 2).2 = [Event.targetHit 2 0 1 2] := by
  constructor
  · decide
  · decide

/-- C2 as amended: when the price fetch for a signal fails mid-cycle, that
signal's record is left untouched (no alert, no state change) and the signals
evaluated *before* it in the cycle keep their updates and notifications — but
the exception propagates out of the `for` loop to the cycle-level `except`,
so the remaining signals of the snapshot are skipped for this cycle (the
`while` loop itself survives and starts the next cycle). -/
theorem C2_fetch_failure_skips_signal_aborts_cycle (fetch : String → Option ℚ)
    (pre post : List Signal) (s : Signal) (sigs : List (Nat × Signal))
    (hA : s.active = true) (hF : fetch s.symbol = none)
    (hPre : (runSnap fetch pre sigs).2.2 = false) :
    runSnap fetch (pre ++ s :: post) sigs =
      ((runSnap fetch pre sigs).1, (runSnap fetch pre sigs).2.1, true) ∧
    (s.id ∉ pre.map Signal.id →
      dictGet (runSnap fetch pre sigs).1 s.id = dictGet sigs s.id) := by
  constructor
  · rw [runSnap_append fetch pre (s :: post) sigs hPre,
      runSnap_cons_fail fetch s post _ hA hF]
    simp
  · exact fun hid => runSnap_untouched fetch pre sigs s.id hid

/-- Witness for `C2_fetch_failure_skips_signal_aborts_cycle`: in the snapshot
`[wSigB, wSigA]` the fetch for `wSigA` fails after `wSigB` was evaluated; the
cycle ends aborted with only `wSigB`'s updates, and `wSigA`'s record is
untouched. -/
theorem C2_fetch_failure_skips_signal_aborts_cycle_witness :
    runSnap wFetch ([wSigB] ++ wSigA :: []) wStore.signals =
      ((runSnap wFetch [wSigB] wStore.signals).1,
        (runSnap wFetch [wSigB] wStore.signals).2.1, true) ∧
    dictGet (runSnap wFetch [wSigB] wStore.signals).1 wSigA.id =
      dictGet wStore.signals wSigA.id :=
  have h := C2_fetch_failure_skips_signal_aborts_cycle wFetch [wSigB] [] wSigA
    wStore.signals (by decide) (by decide) (by decide)
  ⟨h.1, h.2 (by decide)⟩

/-! ## Store and data-model claims -/

/-- C3: ids assigned by `SignalStore.add` are strictly increasing over the
store's lifetime and never reused after a delete: `add` hands out exactly the
current `next_id` and bumps it by one; `delete` and `update` never change
`next_id`; on a fresh store three adds yield ids 1, 2, 3, and after deleting
id 2 the next add yields id 4, never 2. -/
theorem C3_ids_strictly_increasing_never_reused :
    (∀ (st : SignalStore) (s : Signal),
      (st.add s).1.id = st.next_id ∧ (st.add s).2.next_id = st.next_id + 1) ∧
    (∀ (st : SignalStore) (sid : Nat), (st.delete sid).2.next_id = st.next_id) ∧
    (∀ (st : SignalStore) (s : Signal), (st.update s).next_id = st.next_id) ∧
    (∀ s1 s2 s3 s4 : Signal,
      (((({} : SignalStore).add s1).2.add s2).2.add s3).1.id = 3 ∧
      ((({} : SignalStore).add s1).2.add s2).1.id = 2 ∧
      (({} : SignalStore).add s1).1.id = 1 ∧
      ((((((({} : SignalStore).add s1).2.add s2).2.add s3).2.delete 2).2.add s4).1).id = 4) := by
  refine ⟨fun st s => ⟨rfl, rfl⟩, fun st sid => ?_, fun st s => rfl, fun s1 s2 s3 s4 => ?_⟩
  · unfold SignalStore.delete
    cases dictGet st.signals sid <;> rfl
  · refine ⟨rfl, rfl, rfl, ?_⟩
    simp [SignalStore.add, SignalStore.delete, dictInsert, dictGet]

/-- C8: deleting an id that is not present returns `false` and leaves the
store completely unchanged (same `next_id`, same records); deleting a present
id returns `true`. -/
theorem C8_delete_missing_id_is_noop (st : SignalStore) (sid : Nat) :
    (st.get sid = none → st.delete sid = (false, st)) ∧
    (∀ s, st.get sid = some s → (st.delete sid).1 = true) := by
  constructor
  · intro h
    simp [SignalStore.delete, SignalStore.get] at h ⊢
    simp [h]
  · intro s h
    simp [SignalStore.get] at h
    simp [SignalStore.delete, h]

/-- Witness for `C8_delete_missing_id_is_noop`: id 5 is absent from the empty
store and its deletion is a no-op returning `false`; id 3 is present in a
one-signal store and its deletion returns `true`. -/
theorem C8_delete_missing_id_is_noop_witness :
    ({} : SignalStore).delete 5 = (false, {}) ∧
    ((SignalStore.mk [(3, sampleSignal)] 4).delete 3).1 = true :=
  ⟨(C8_delete_missing_id_is_noop {} 5).1 rfl,
   (C8_delete_missing_id_is_noop (SignalStore.mk [(3, sampleSignal)] 4) 3).2
     sampleSignal rfl⟩

/-- C10: the operation `SignalStore.update s` stores `s` under `s.id` unconditionally —
an upsert: the record is afterwards retrievable whether or not `s.id` was
present, `next_id` is untouched, and a record deleted between a read and the
update reappears. -/
theorem C10_update_is_upsert (st : SignalStore) (s : Signal) :
    (st.update s).get s.id = some s ∧
    (st.update s).next_id = st.next_id ∧
    (∀ t : Signal,
      let r := ({} : SignalStore).add t
      ((r.2.delete r.1.id).2.update r.1).get r.1.id = some r.1) := by
  refine ⟨?_, rfl, fun t => ?_⟩
  · exact dictGet_dictInsert_self st.signals s.id s
  · exact dictGet_dictInsert_self _ _ _

/-- C9: the `created_at` dataclass default is evaluated once at class
definition (import) time, so the constructor ignores the creation instant:
signals created at any two different times carry the same `created_at`,
namely the import instant itself; monitoring never rewrites `created_at`.
(The code therefore violates the claim that each signal records its own
distinct creation moment.) -/
theorem C9_created_at_is_class_definition_time :
    (∀ (classDefTime t1 t2 : Nat) (sym side : String) (e : ℚ) (tg : List ℚ)
      (stp : Option ℚ) (note : String),
      (newSignal classDefTime t1 sym side e tg stp note).created_at =
        (newSignal classDefTime t2 sym side e tg stp note).created_at) ∧
    (∀ (classDefTime t : Nat) (sym side : String) (e : ℚ) (tg : List ℚ)
      (stp : Option ℚ) (note : String),
      (newSignal classDefTime t sym side e tg stp note).created_at = classDefTime) ∧
    (∀ (s : Signal) (p : ℚ), (evalSignal s p).1.created_at = s.created_at) := by
  refine ⟨fun _ _ _ _ _ _ _ _ _ => rfl, fun _ _ _ _ _ _ _ _ => rfl, fun s p => ?_⟩
  unfold evalSignal evalActiveSignal stopPass
  by_cases h : s.active = true <;> simp [h]
  cases s.stop with
  | none => rfl
  | some stp =>
    by_cases hc : (s.side = "LONG" ∧ p ≤ stp) ∨ (s.side = "SHORT" ∧ stp ≤ p) <;>
      simp [hc]

theorem Signal.from_dict_to_dict (s : Signal) : Signal.from_dict s.to_dict = s := rfl

/-- C6: saving any store state and loading the resulting document on a
fresh store reconstructs an equal collection of signals (same ids mapping to
equal records, in the same order) and an unchanged next-id counter. -/
theorem C6_save_load_round_trip (st : SignalStore) :
    SignalStore.loadDoc st.saveDoc = st := by
  cases st with
  | mk sigs nid =>
    simp only [SignalStore.loadDoc, SignalStore.saveDoc, List.map_map, SignalStore.mk.injEq,
      and_true]
    induction sigs with
    | nil => rfl
    | cons hd tl ih =>
      simpa [Nat.ofDigits_digits, Signal.from_dict_to_dict] using ih

/-- C7 counterexample: an `/addsignal` invocation with a valid side but an
empty `targets` value is *not* rejected: validation succeeds with
`targets = []`, the store is mutated (`next_id` bumped to 2), and a signal
whose target list is empty is created and stored under id 1 — against the
claim that an empty targets list is rejected with the store untouched. -/
theorem C7_empty_targets_accepted_counterexample :
    (addsignalValidate [("side", "LONG"), ("targets", "")]).isSome = true ∧
    ((addsignal_cmd 0 0 55 {} [("side", "LONG"), ("targets", "")]).1.get 1).map
      Signal.targets = some [] ∧
    (addsignal_cmd 0 0 55 {} [("side", "LONG"), ("targets", "")]).1.next_id = 2 := by
  refine ⟨by decide, by decide, by decide⟩

/-- C7 as amended: the `try` block of `addsignal_cmd` does validate before
touching the store — any validation failure leaves the store untouched and
answers the caller with a format error, a side other than LONG or SHORT (or a
malformed number) is such a failure, and no signal with an invalid side is
ever created — but an empty targets list is not a validation failure (see the
counterexample). -/
theorem C7_validation_rejects_before_store :
    (∀ (kv : List (String × String)) (classDefTime now mid : Nat) (st : SignalStore),
      addsignalValidate kv = none →
        addsignal_cmd classDefTime now mid st kv = (st, none)) ∧
    (∀ (kv : List (String × String)) (p : ParsedArgs),
      addsignalValidate kv = some p → p.side = "LONG" ∨ p.side = "SHORT") ∧
    addsignalValidate [("side", "FOO")] = none ∧
    addsignalValidate [("side", "LONG"), ("targets", "1.1,abc")] = none := by
  refine ⟨fun kv _ _ _ st h => ?_, fun kv p h => ?_, by decide, by decide⟩
  · simp [addsignal_cmd, h]
  · unfold addsignalValidate at h
    rcases hE : entryOpt kv with _ | entry <;> rw [hE] at h <;>
      rcases hT : targetsOpt kv with _ | tgts <;> rw [hT] at h <;>
        rcases hS : stopOpt kv with _ | stp <;> rw [hS] at h <;>
          simp only [] at h
    · exact absurd h (by simp)
    · exact absurd h (by simp)
    · exact absurd h (by simp)
    · exact absurd h (by simp)
    · exact absurd h (by simp)
    · exact absurd h (by simp)
    · exact absurd h (by simp)
    · by_cases hside : sideOf kv = "LONG" ∨ sideOf kv = "SHORT"
      · rw [if_pos hside] at h
        cases h
        exact hside
      · rw [if_neg hside] at h
        exact absurd h (by simp)

/-- Witness for `C7_validation_rejects_before_store`: the rejection of
`side=FOO` leaves a concrete store untouched, and the accepted arguments
`side=SHORT targets=2.0` indeed carry a valid side. -/
theorem C7_validation_rejects_before_store_witness :
    addsignal_cmd 0 0 55 (SignalStore.mk [(3, sampleSignal)] 4) [("side", "FOO")] =
      (SignalStore.mk [(3, sampleSignal)] 4, none) ∧
    (({ symbol := "EUR/USD", side := "SHORT", entry := 0, targets := []
        stop := none, note := "" } : ParsedArgs).side = "LONG" ∨
      ({ symbol := "EUR/USD", side := "SHORT", entry := 0, targets := []
         stop := none, note := "" } : ParsedArgs).side = "SHORT") :=
  ⟨C7_validation_rejects_before_store.1 [("side", "FOO")] 0 0 55
      (SignalStore.mk [(3, sampleSignal)] 4) (by decide),
   C7_validation_rejects_before_store.2.1
      [("side", "SHORT")]
      { symbol := "EUR/USD", side := "SHORT", entry := 0, targets := []
        stop := none, note := "" } (by decide)⟩

end SignalBot
